import Mathlib

/-!
Shallow embedding of `openmc/deplete/pool.py`: the `PoolShim` serial executor,
the `DepletionDispatcher` class, and the one-shot `deplete` convenience
function, together with the fragments of `itertools` (`repeat`, `starmap`,
lazy `map`/`zip` truncation) that the module uses.

Python iterables that are either a finite sequence or an
`itertools.repeat` stream are modelled by `PyIter`.  `map` over several
iterables truncates at the shortest finite one; `zip` does the same.
-/

namespace OpenMCDeplete

/-- Model of the Python iterables used in `pool.py`: either a finite list or
an infinite `itertools.repeat` of a single value. -/
inductive PyIter (α : Type) where
  | fin (xs : List α)
  | rep (a : α)
deriving DecidableEq

namespace PyIter

/-- Python `map(f, a, b)`: applies `f` elementwise, truncating at the
shortest finite iterable; `repeat` never truncates. -/
def map2 {α β γ : Type} (f : α → β → γ) : PyIter α → PyIter β → PyIter γ
  | .fin xs, .fin ys => .fin (List.zipWith f xs ys)
  | .fin xs, .rep b => .fin (xs.map (fun a => f a b))
  | .rep a, .fin ys => .fin (ys.map (f a))
  | .rep a, .rep b => .rep (f a b)

/-- Python `map(f, a, b, c)`: three-iterable map, truncating at the shortest
finite iterable (expressed by pairing twice, which has the same truncation
behaviour). -/
def map3 {α β γ δ : Type} (f : α → β → γ → δ)
    (a : PyIter α) (b : PyIter β) (c : PyIter γ) : PyIter δ :=
  map2 (fun g z => g z) (map2 (fun u v => f u v) a b) c

/-- Python `zip(it, xs)` where the second iterable is a finite list:
truncates at the shorter of the two. -/
def zipFin {α β : Type} : PyIter α → List β → List (α × β)
  | .fin as, xs => as.zip xs
  | .rep a, xs => xs.map (fun b => (a, b))

/-- Element `i` of the iterable (the value a consumer sees on the `i`-th
pull): positional for a finite list, the repeated value for `repeat`. -/
def nth {α : Type} : PyIter α → Nat → Option α
  | .fin xs, i => xs.get? i
  | .rep a, _ => some a

end PyIter

/-- Python `zip(it, xs, repeat c)` followed by tuple formation, as used for
`inputs = zip(matrices, x, repeat(dt))`: pairs each element of `it` with the
matching element of `xs` and the constant `c`, truncating at the shorter of
the first two. -/
def zipRep {α β γ : Type} (it : PyIter α) (xs : List β) (c : γ) :
    List (α × β × γ) :=
  (PyIter.zipFin it xs).map (fun p => (p.1, p.2, c))

/-- The depletion chain collaborator, as consumed by `pool.py`: an ordered
fission-yield table and a default matrix constructor `form_matrix`. -/
structure Chain (R Y M : Type) where
  fission_yields : List Y
  form_matrix : R → Y → M

/-- `PoolShim.starmap`: `itertools.starmap(func, inputs)`, an ordered map
over the input tuples, executed in the calling context. -/
def PoolShim.starmap {α β : Type} (f : α → β) (inputs : List α) : List β :=
  inputs.map f

/-- Modelled from the spec: `multiprocessing.Pool.starmap` (an external
collaborator, not part of this repository).  The parallel variant completes
the tuples in an arbitrary completion order `order`, tagging each result
with its original index, and then reassembles the results by original index
so that the returned sequence preserves the input ordering. -/
def Pool.starmap {α β : Type} (f : α → β) (inputs : List α)
    (order : List Nat) : List β :=
  let completed : List (Nat × β) :=
    order.filterMap (fun i => (inputs.get? i).map (fun a => (i, f a)))
  (List.range inputs.length).filterMap (fun i => completed.lookup i)

/-- The two executor classes selectable at dispatcher construction:
`multiprocessing.Pool` or the serial `PoolShim`. -/
inductive PoolClass where
  | pool
  | poolShim
deriving DecidableEq

/-- `DepletionDispatcher`: its only state is the pool class chosen at
construction. -/
structure DepletionDispatcher where
  _pool_class : PoolClass
deriving DecidableEq

/-- `DepletionDispatcher.__init__`: `self._pool_class = Pool if
use_multiprocessing else PoolShim`. -/
def DepletionDispatcher.init (use_multiprocessing : Bool) :
    DepletionDispatcher :=
  ⟨if use_multiprocessing then .pool else .poolShim⟩

/-- The `ValueError` raised by `deplete` on a fission-yield length
mismatch, carrying the two lengths reported in the message. -/
structure ValueErr where
  nyields : Nat
  ncomps : Nat
deriving DecidableEq

/-- The fission-yield resolution at the top of `deplete`:
`if len(fission_yields) == 1: fission_yields = repeat(fission_yields[0])`,
`elif len(fission_yields) != len(x): raise ValueError(...)`,
else keep the table as is. -/
def resolveFissionYields {Y : Type} (fys : List Y) (nx : Nat) :
    Except ValueErr (PyIter Y) :=
  match fys with
  | [y] => .ok (.rep y)
  | _ =>
    if fys.length ≠ nx then .error ⟨fys.length, nx⟩
    else .ok (.fin fys)

/-- The matrix construction step of `deplete`:
`matrices = map(chain.form_matrix, rates, fission_yields)` when
`matrix_func is None`, else
`matrices = map(matrix_func, repeat(chain), rates, fission_yields)`. -/
def buildMatrices {R Y M : Type} (chain : Chain R Y M) (rates : List R)
    (matrix_func : Option (Chain R Y M → R → Y → M))
    (fission_yields : PyIter Y) : PyIter M :=
  match matrix_func with
  | none => PyIter.map2 chain.form_matrix (.fin rates) fission_yields
  | some mf => PyIter.map3 mf (.rep chain) (.fin rates) fission_yields

/-- The body of `deplete` after yield resolution: build the matrices, zip
them with the atom vectors and the repeated `dt`, and map `func` over the
tuples through the configured pool (`order` is the completion order of the
parallel pool; the serial shim ignores it). -/
def DepletionDispatcher.depleteRun {R Y M V T : Type}
    (d : DepletionDispatcher) (func : M → V → T → V) (chain : Chain R Y M)
    (x : List V) (rates : List R) (dt : T)
    (matrix_func : Option (Chain R Y M → R → Y → M)) (order : List Nat)
    (fission_yields : PyIter Y) : List V :=
  let matrices := buildMatrices chain rates matrix_func fission_yields
  let inputs := zipRep matrices x dt
  match d._pool_class with
  | .poolShim => PoolShim.starmap (fun p => func p.1 p.2.1 p.2.2) inputs
  | .pool => Pool.starmap (fun p => func p.1 p.2.1 p.2.2) inputs order

/-- `DepletionDispatcher.deplete`: resolve the fission yields (raising
`ValueError` on a length mismatch), then run the matrix construction and
the pooled integration. -/
def DepletionDispatcher.deplete {R Y M V T : Type}
    (d : DepletionDispatcher) (func : M → V → T → V) (chain : Chain R Y M)
    (x : List V) (rates : List R) (dt : T)
    (matrix_func : Option (Chain R Y M → R → Y → M)) (order : List Nat) :
    Except ValueErr (List V) :=
  match resolveFissionYields chain.fission_yields x.length with
  | .error e => .error e
  | .ok fyIter =>
    .ok (d.depleteRun func chain x rates dt matrix_func order fyIter)

/-- The one-shot module-level `deplete` function:
`return DepletionDispatcher(Pool).deplete(func, chain, x, rates, dt,
matrix_func=None)`.  The constructor argument is the (truthy) `Pool` class,
so the parallel pool is selected; the caller's `matrix_func` is discarded
and `None` is passed in its place. -/
def deplete {R Y M V T : Type} (func : M → V → T → V) (chain : Chain R Y M)
    (x : List V) (rates : List R) (dt : T)
    (matrix_func : Option (Chain R Y M → R → Y → M)) (order : List Nat) :
    Except ValueErr (List V) :=
  (DepletionDispatcher.init true).deplete func chain x rates dt none order

/-!
Instrumented embedding for the error-handling claims.  `depleteE` is the
same method with a fallible matrix builder and integration function and a
trace of the observable resource events: how many times the matrix builder
was invoked, and how often the pool was acquired (`__enter__`) and released
(`__exit__`).  The `with` statement of Python guarantees that `__exit__`
runs even when the body raises, so the pool-acquisition branch always
records one acquisition and one release.

The forcing is modelled in Python's pull order.  `zip(matrices, x,
repeat(dt))` pulls the `matrices` iterator first on every round and the
`x` iterator second, so when `x` is exhausted while `matrices` still has a
pending build — which happens in the broadcast case with more rate entries
than atom vectors, because `repeat` never ends the `map` — one extra
matrix build is forced and then discarded, and an exception raised by that
extra build propagates.  The runners therefore walk the pending-build list
and the atom-vector list separately instead of a pre-truncated zip.
-/

/-- Trace of the observable resource events of one `deplete` call. -/
structure Trace where
  builderCalls : Nat
  poolAcquired : Nat
  poolReleased : Nat
deriving DecidableEq

/-- The exceptions a `deplete` call can surface: the `ValueError` of the
yield-length validation, or an exception raised by the matrix builder or
the integration function. -/
inductive PyErr (E : Type) where
  | valueError (ve : ValueErr)
  | raised (e : E)
deriving DecidableEq

/-- The matrix iterator as its finite list of pending builds: one entry
per successful pull of `map(builder, rates, fission_yields)`, i.e. one per
rate entry in the broadcast case (`repeat` never ends the map) and one per
rate/yield pair in the positional case.  Pulling past the end of this list
exhausts the map without invoking the builder. -/
def pendingBuilds {R Y M : Type} (chain : Chain R Y M) (rates : List R)
    (matrix_func : Option (Chain R Y M → R → Y → M)) :
    PyIter Y → List M
  | .rep y =>
    match matrix_func with
    | none => rates.map (fun r => chain.form_matrix r y)
    | some mf => rates.map (fun r => mf chain r y)
  | .fin fys =>
    match matrix_func with
    | none => List.zipWith chain.form_matrix rates fys
    | some mf => List.zipWith (fun r y => mf chain r y) rates fys

/-- Serial execution (the `PoolShim` path): `list(starmap(func, inputs))`
forces the lazy `map`/`zip` chain one round at a time.  Each round pulls
the matrix iterator first (one builder invocation, whose exception
propagates), then pulls the atom-vector iterator — so when `x` runs out
one build past its end, that build is still forced and its result
discarded — then calls `func`.  Returns the outcome and the number of
matrix builds forced. -/
def runSerial {M V T E : Type} (func : M → V → T → Except E V) (dt : T) :
    List (Except E M) → List V → Except E (List V) × Nat
  | [], _ => (.ok [], 0)
  | em :: _, [] =>
    match em with
    | .error e => (.error e, 1)
    | .ok _ => (.ok [], 1)
  | em :: ms, xi :: xs =>
    match em with
    | .error e => (.error e, 1)
    | .ok m =>
      match func m xi dt with
      | .error e => (.error e, 1)
      | .ok v =>
        match runSerial func dt ms xs with
        | (.error e, k) => (.error e, k + 1)
        | (.ok vs, k) => (.ok (v :: vs), k + 1)

/-- Forcing of the whole lazy input chain, as `Pool.starmap` does before
dispatching: every build the zip pulls runs (left to right, including the
one extra build pulled just before `x` is found exhausted); the first
builder exception aborts the forcing. -/
def forceAll {M V E : Type} :
    List (Except E M) → List V → Except E (List (M × V)) × Nat
  | [], _ => (.ok [], 0)
  | em :: _, [] =>
    match em with
    | .error e => (.error e, 1)
    | .ok _ => (.ok [], 1)
  | em :: ms, xi :: xs =>
    match em with
    | .error e => (.error e, 1)
    | .ok m =>
      match forceAll ms xs with
      | (.error e, k) => (.error e, k + 1)
      | (.ok ps, k) => (.ok ((m, xi) :: ps), k + 1)

/-- Collection of worker outcomes: the full result list when every worker
succeeded, else a raised worker exception (modelled as the first in input
order). -/
def collectResults {V E : Type} : List (Except E V) → Except E (List V)
  | [] => .ok []
  | .error e :: _ => .error e
  | .ok v :: rest =>
    match collectResults rest with
    | .error e => .error e
    | .ok vs => .ok (v :: vs)

/-- Modelled from the spec: parallel execution (`Pool.starmap`) first
materializes the input tuples (forcing every build the zip pulls), then
runs `func` on each tuple in worker processes and raises any worker
exception uncaught. -/
def runParallel {M V T E : Type} (func : M → V → T → Except E V) (dt : T)
    (ms : List (Except E M)) (xs : List V) : Except E (List V) × Nat :=
  match forceAll ms xs with
  | (.error e, k) => (.error e, k)
  | (.ok pairs, k) =>
    (collectResults (pairs.map (fun p => func p.1 p.2 dt)), k)

/-- Dispatch through the configured pool class. -/
def runPool {M V T E : Type} (pc : PoolClass) (func : M → V → T → Except E V)
    (dt : T) (ms : List (Except E M)) (xs : List V) :
    Except E (List V) × Nat :=
  match pc with
  | .poolShim => runSerial func dt ms xs
  | .pool => runParallel func dt ms xs

/-- Instrumented `DepletionDispatcher.deplete` with fallible builder and
integration function.  On the validation-error path nothing else runs: no
matrix build, no pool acquisition.  Otherwise the pool is acquired, the
pull-order forcing runs, and the pool is released unconditionally (the
`with` statement), with any worker exception re-raised unchanged. -/
def DepletionDispatcher.depleteE {R Y M V T E : Type}
    (d : DepletionDispatcher) (func : M → V → T → Except E V)
    (chain : Chain R Y (Except E M)) (x : List V) (rates : List R) (dt : T)
    (matrix_func : Option (Chain R Y (Except E M) → R → Y → Except E M)) :
    Except (PyErr E) (List V) × Trace :=
  match resolveFissionYields chain.fission_yields x.length with
  | .error ve => (.error (.valueError ve), ⟨0, 0, 0⟩)
  | .ok fyIter =>
    let ms := pendingBuilds chain rates matrix_func fyIter
    match runPool d._pool_class func dt ms x with
    | (res, k) => (res.mapError .raised, ⟨k, 1, 1⟩)

/-- State-passing form of the `deplete` method.  A Python method call
threads the receiver; the body of `deplete` reads `self._pool_class` and
assigns no attribute, so the post-state is the unchanged receiver. -/
def DepletionDispatcher.depleteS {R Y M V T : Type}
    (d : DepletionDispatcher) (func : M → V → T → V) (chain : Chain R Y M)
    (x : List V) (rates : List R) (dt : T)
    (matrix_func : Option (Chain R Y M → R → Y → M)) (order : List Nat) :
    Except ValueErr (List V) × DepletionDispatcher :=
  (d.deplete func chain x rates dt matrix_func order, d)

/-!
Helper lemmas about the embedded operations.
-/

/-- Looking up index `i` in the completion-tagged list recovers the result
computed for input `i`, for any completion order containing `i`. -/
theorem lookup_completed {α β : Type} (f : α → β) (inputs : List α) :
    ∀ (order : List Nat) (i : Nat) (a : α), i ∈ order →
      inputs.get? i = some a →
      (order.filterMap
        (fun j => (inputs.get? j).map (fun b => (j, f b)))).lookup i
        = some (f a) := by
  intro order
  induction order with
  | nil => intro i a hi _; cases hi
  | cons j rest ih =>
    intro i a hi ha
    rcases eq_or_ne j i with hj | hj
    · subst hj
      rw [List.filterMap_cons_some (b := (j, f a)) (by rw [ha]; rfl)]
      exact List.lookup_cons_self
    · have hi' : i ∈ rest := by
        rcases List.mem_cons.mp hi with h | h
        · exact absurd h.symm hj
        · exact h
      cases hja : inputs.get? j with
      | none =>
        rw [List.filterMap_cons_none (by rw [hja]; rfl)]
        exact ih i a hi' ha
      | some b =>
        rw [List.filterMap_cons_some (b := (j, f b)) (by rw [hja]; rfl),
          List.lookup_cons]
        have hbeq : (i == j) = false := beq_eq_false_iff_ne.mpr (Ne.symm hj)
        rw [hbeq]
        exact ih i a hi' ha

/-- Filtering the positions of a list through its own `get?` is the same
as mapping over the list. -/
theorem range_filterMap_get {α β : Type} (f : α → β) :
    ∀ (l : List α),
      (List.range l.length).filterMap (fun i => (l.get? i).map f)
        = l.map f := by
  intro l
  induction l with
  | nil => simp
  | cons a t ih =>
    have hcomp : ((fun i => ((a :: t).get? i).map f) ∘ Nat.succ)
        = fun i => (t.get? i).map f := rfl
    rw [List.length_cons, List.range_succ_eq_map,
      List.filterMap_cons_some
        (f := fun i => ((a :: t).get? i).map f) (a := 0) (b := f a) rfl,
      List.filterMap_map, hcomp, ih]
    rfl

/-- Reassembly correctness of the modelled parallel pool: for any
completion order that is a permutation of the input indices, the parallel
`starmap` returns exactly the in-order map over the inputs. -/
theorem Pool.starmap_eq_map {α β : Type} (f : α → β) (inputs : List α)
    (order : List Nat)
    (hperm : order.Perm (List.range inputs.length)) :
    Pool.starmap f inputs order = inputs.map f := by
  have hcong : ∀ i ∈ List.range inputs.length,
      (order.filterMap
        (fun j => (inputs.get? j).map (fun b => (j, f b)))).lookup i
        = (inputs.get? i).map f := by
    intro i hi
    have hilt : i < inputs.length := List.mem_range.mp hi
    obtain ⟨a, ha⟩ : ∃ a, inputs.get? i = some a := by
      rw [List.get?_eq_getElem?]
      exact ⟨inputs[i], List.getElem?_eq_getElem hilt⟩
    rw [ha]
    exact lookup_completed f inputs order i a (hperm.mem_iff.mpr hi) ha
  show (List.range inputs.length).filterMap _ = _
  rw [List.filterMap_congr hcong, range_filterMap_get f inputs]

/-- Broadcast case, default builder: one matrix per reaction-rate entry,
all using the same yield value. -/
theorem buildMatrices_none_rep {R Y M : Type} (chain : Chain R Y M)
    (rates : List R) (y : Y) :
    buildMatrices chain rates none (.rep y)
      = .fin (rates.map (fun r => chain.form_matrix r y)) := rfl

/-- Positional case, default builder: matrices are the positional zip of
rates with yields. -/
theorem buildMatrices_none_fin {R Y M : Type} (chain : Chain R Y M)
    (rates : List R) (fys : List Y) :
    buildMatrices chain rates none (.fin fys)
      = .fin (List.zipWith chain.form_matrix rates fys) := rfl

/-- Broadcast case, custom builder: the builder is applied to the chain,
each rate, and the single shared yield. -/
theorem buildMatrices_some_rep {R Y M : Type} (chain : Chain R Y M)
    (rates : List R) (mf : Chain R Y M → R → Y → M) (y : Y) :
    buildMatrices chain rates (some mf) (.rep y)
      = .fin (rates.map (fun r => mf chain r y)) := by
  simp [buildMatrices, PyIter.map3, PyIter.map2, List.map_map]

/-- Positional case, custom builder: the builder is applied to the chain
and the positional zip of rates with yields. -/
theorem buildMatrices_some_fin {R Y M : Type} (chain : Chain R Y M)
    (rates : List R) (mf : Chain R Y M → R → Y → M) (fys : List Y) :
    buildMatrices chain rates (some mf) (.fin fys)
      = .fin (List.zipWith (fun r y => mf chain r y) rates fys) := by
  simp [buildMatrices, PyIter.map3, PyIter.map2, List.zipWith_map_left]

/-- A fission-yield table `[y]` of length one resolves to the lazy
repetition of `y`. -/
theorem resolve_singleton {Y : Type} (y : Y) (nx : Nat) :
    resolveFissionYields [y] nx = .ok (.rep y) := rfl

/-- A table whose length matches the composition count (and is not one)
resolves to itself, paired positionally. -/
theorem resolve_of_len_eq {Y : Type} (fys : List Y) (nx : Nat)
    (h1 : fys.length ≠ 1) (h2 : fys.length = nx) :
    resolveFissionYields fys nx = .ok (.fin fys) := by
  match fys with
  | [] =>
    have hu : resolveFissionYields ([] : List Y) nx
        = if ([] : List Y).length ≠ nx then
            .error ⟨([] : List Y).length, nx⟩
          else .ok (.fin []) := rfl
    rw [hu, if_neg (not_not_intro h2)]
  | [y] => exact absurd rfl h1
  | a :: b :: t =>
    have hu : resolveFissionYields (a :: b :: t) nx
        = if (a :: b :: t).length ≠ nx then
            .error ⟨(a :: b :: t).length, nx⟩
          else .ok (.fin (a :: b :: t)) := rfl
    rw [hu, if_neg (not_not_intro h2)]

/-- A table whose length is neither one nor the composition count resolves
to the `ValueError` carrying both lengths. -/
theorem resolve_of_len_ne {Y : Type} (fys : List Y) (nx : Nat)
    (h1 : fys.length ≠ 1) (h2 : fys.length ≠ nx) :
    resolveFissionYields fys nx = .error ⟨fys.length, nx⟩ := by
  match fys with
  | [] =>
    have hu : resolveFissionYields ([] : List Y) nx
        = if ([] : List Y).length ≠ nx then
            .error ⟨([] : List Y).length, nx⟩
          else .ok (.fin []) := rfl
    rw [hu, if_pos h2]
  | [y] => exact absurd rfl h1
  | a :: b :: t =>
    have hu : resolveFissionYields (a :: b :: t) nx
        = if (a :: b :: t).length ≠ nx then
            .error ⟨(a :: b :: t).length, nx⟩
          else .ok (.fin (a :: b :: t)) := rfl
    rw [hu, if_pos h2]

/-- Inversion of yield resolution: a successful resolution is either the
broadcast of a single entry or the positional table of matching length. -/
theorem resolve_ok_cases {Y : Type} (fys : List Y) (nx : Nat)
    (it : PyIter Y) (h : resolveFissionYields fys nx = .ok it) :
    (∃ y, fys = [y] ∧ it = .rep y)
      ∨ (it = .fin fys ∧ fys.length = nx) := by
  by_cases h1 : fys.length = 1
  · left
    obtain ⟨y, hy⟩ := List.length_eq_one.mp h1
    subst hy
    rw [resolve_singleton] at h
    exact ⟨y, rfl, (Except.ok.inj h).symm⟩
  · right
    by_cases h2 : fys.length = nx
    · rw [resolve_of_len_eq fys nx h1 h2] at h
      exact ⟨(Except.ok.inj h).symm, h2⟩
    · rw [resolve_of_len_ne fys nx h1 h2] at h
      exact absurd h (by simp)

/-- A successful resolution rules out the double length mismatch. -/
theorem resolve_ok_of_valid {Y : Type} (fys : List Y) (nx : Nat)
    (h : fys.length = 1 ∨ fys.length = nx) :
    ∃ it, resolveFissionYields fys nx = .ok it := by
  rcases h with h1 | h2
  · obtain ⟨y, hy⟩ := List.length_eq_one.mp h1
    exact ⟨.rep y, by rw [hy]; rfl⟩
  · by_cases h1 : fys.length = 1
    · obtain ⟨y, hy⟩ := List.length_eq_one.mp h1
      exact ⟨.rep y, by rw [hy]; rfl⟩
    · exact ⟨.fin fys, resolve_of_len_eq fys nx h1 h2⟩

/-- Unfolding of `deplete` on the successful resolution path. -/
theorem deplete_ok_of_resolve {R Y M V T : Type}
    (d : DepletionDispatcher) (func : M → V → T → V) (chain : Chain R Y M)
    (x : List V) (rates : List R) (dt : T)
    (matrix_func : Option (Chain R Y M → R → Y → M)) (order : List Nat)
    (fy : PyIter Y)
    (hres : resolveFissionYields chain.fission_yields x.length = .ok fy) :
    d.deplete func chain x rates dt matrix_func order
      = .ok (d.depleteRun func chain x rates dt matrix_func order fy) := by
  unfold DepletionDispatcher.deplete
  rw [hres]

/-- Element `i` of the zipped inputs pairs element `i` of the matrix
iterable with atom vector `i` and the shared `dt`. -/
theorem zipRep_get {α β γ : Type} (it : PyIter α) (xs : List β) (c : γ)
    (i : Nat) (m : α) (b : β) (hm : it.nth i = some m)
    (hb : xs.get? i = some b) :
    (zipRep it xs c).get? i = some (m, b, c) := by
  cases it with
  | fin ms =>
    have hm' : ms.get? i = some m := hm
    unfold zipRep PyIter.zipFin
    rw [List.get?_map, (List.get?_zip_eq_some ms xs (m, b) i).mpr ⟨hm', hb⟩]
    rfl
  | rep a =>
    have ha : a = m := Option.some.inj hm
    subst ha
    unfold zipRep PyIter.zipFin
    rw [List.get?_map, List.get?_map, hb]
    rfl

/-- The serial shim executes the mapping in input order directly. -/
theorem depleteRun_shim {R Y M V T : Type} (func : M → V → T → V)
    (chain : Chain R Y M) (x : List V) (rates : List R) (dt : T)
    (matrix_func : Option (Chain R Y M → R → Y → M)) (order : List Nat)
    (fy : PyIter Y) :
    (⟨.poolShim⟩ : DepletionDispatcher).depleteRun
        func chain x rates dt matrix_func order fy
      = (zipRep (buildMatrices chain rates matrix_func fy) x dt).map
          (fun p => func p.1 p.2.1 p.2.2) := rfl

/-- Both executor variants return the in-order map over the zipped inputs,
provided the parallel completion order is a permutation of the input
indices. -/
theorem depleteRun_eq_map {R Y M V T : Type} (d : DepletionDispatcher)
    (func : M → V → T → V) (chain : Chain R Y M) (x : List V)
    (rates : List R) (dt : T)
    (matrix_func : Option (Chain R Y M → R → Y → M)) (order : List Nat)
    (fy : PyIter Y)
    (horder : order.Perm (List.range
      (zipRep (buildMatrices chain rates matrix_func fy) x dt).length)) :
    d.depleteRun func chain x rates dt matrix_func order fy
      = (zipRep (buildMatrices chain rates matrix_func fy) x dt).map
          (fun p => func p.1 p.2.1 p.2.2) := by
  obtain ⟨pc⟩ := d
  cases pc with
  | poolShim => rfl
  | pool => exact Pool.starmap_eq_map _ _ _ horder

/-- Length of the zipped matrix/vector pairs: the executor receives
exactly `min (len rates) (len x)` work tuples on every successful
resolution path. -/
theorem zipFin_length_of_resolve {R Y M V : Type} (chain : Chain R Y M)
    (x : List V) (rates : List R)
    (matrix_func : Option (Chain R Y M → R → Y → M)) (fy : PyIter Y)
    (hres : resolveFissionYields chain.fission_yields x.length = .ok fy) :
    (PyIter.zipFin (buildMatrices chain rates matrix_func fy) x).length
      = min rates.length x.length := by
  rcases resolve_ok_cases _ _ _ hres with ⟨y, hy, hfy⟩ | ⟨hfy, hlen⟩
  · subst hfy
    cases matrix_func with
    | none =>
      rw [buildMatrices_none_rep]
      simp [PyIter.zipFin]
    | some mf =>
      rw [buildMatrices_some_rep]
      simp [PyIter.zipFin]
  · subst hfy
    cases matrix_func with
    | none =>
      rw [buildMatrices_none_fin]
      simp only [PyIter.zipFin, List.length_zip, List.length_zipWith]
      omega
    | some mf =>
      rw [buildMatrices_some_fin]
      simp only [PyIter.zipFin, List.length_zip, List.length_zipWith]
      omega

/-- Length of the full input tuples, with the shared `dt` attached. -/
theorem zipRep_length_of_resolve {R Y M V T : Type} (chain : Chain R Y M)
    (x : List V) (rates : List R) (dt : T)
    (matrix_func : Option (Chain R Y M → R → Y → M)) (fy : PyIter Y)
    (hres : resolveFissionYields chain.fission_yields x.length = .ok fy) :
    (zipRep (buildMatrices chain rates matrix_func fy) x dt).length
      = min rates.length x.length := by
  rw [zipRep, List.length_map]
  exact zipFin_length_of_resolve chain x rates matrix_func fy hres

/-- The matrix-construction expression and the pending-build list agree:
the lazy `map` of the source is the finite iterable of exactly these
builds. -/
theorem buildMatrices_eq_pendingBuilds {R Y M : Type} (chain : Chain R Y M)
    (rates : List R) (matrix_func : Option (Chain R Y M → R → Y → M))
    (fy : PyIter Y) :
    buildMatrices chain rates matrix_func fy
      = .fin (pendingBuilds chain rates matrix_func fy) := by
  cases fy with
  | rep y =>
    cases matrix_func with
    | none =>
      rw [buildMatrices_none_rep]
      rfl
    | some mf =>
      rw [buildMatrices_some_rep]
      rfl
  | fin fys =>
    cases matrix_func with
    | none =>
      rw [buildMatrices_none_fin]
      rfl
    | some mf =>
      rw [buildMatrices_some_fin]
      rfl

/-- A successful serial run forces one matrix build per dispatched round,
plus the one extra build the zip pulls just before finding `x` exhausted
while builds remain: the count is `min (len ms) (len xs + 1)`. -/
theorem runSerial_ok_count {M V T E : Type} (func : M → V → T → Except E V)
    (dt : T) :
    ∀ (ms : List (Except E M)) (xs : List V) (res : List V) (k : Nat),
      runSerial func dt ms xs = (.ok res, k)
        → k = min ms.length (xs.length + 1) := by
  intro ms
  induction ms with
  | nil =>
    intro xs res k h
    simp only [runSerial, Prod.mk.injEq] at h
    obtain ⟨-, hk⟩ := h
    simp only [List.length_nil]
    omega
  | cons em rest ih =>
    intro xs res k h
    cases xs with
    | nil =>
      cases em with
      | error e => simp [runSerial] at h
      | ok m =>
        simp only [runSerial, Prod.mk.injEq] at h
        obtain ⟨-, hk⟩ := h
        simp only [List.length_cons, List.length_nil]
        omega
    | cons xi xs2 =>
      cases em with
      | error e => simp [runSerial] at h
      | ok m =>
        cases hf : func m xi dt with
        | error e => simp [runSerial, hf] at h
        | ok v =>
          cases hr : runSerial func dt rest xs2 with
          | mk fst k2 =>
            cases fst with
            | error e => simp [runSerial, hf, hr] at h
            | ok vs =>
              simp only [runSerial, hf, hr, Prod.mk.injEq] at h
              obtain ⟨-, hk⟩ := h
              have hk2 := ih xs2 vs k2 hr
              simp only [List.length_cons]
              omega

/-- A successful forcing of the whole pulled chain performs one matrix
build per round the zip completes, plus the extra build pulled right
before `x` is found exhausted: the count is `min (len ms) (len xs + 1)`. -/
theorem forceAll_ok_count {M V E : Type} :
    ∀ (ms : List (Except E M)) (xs : List V) (ps : List (M × V)) (k : Nat),
      forceAll ms xs = (.ok ps, k) → k = min ms.length (xs.length + 1) := by
  intro ms
  induction ms with
  | nil =>
    intro xs ps k h
    simp only [forceAll, Prod.mk.injEq] at h
    obtain ⟨-, hk⟩ := h
    simp only [List.length_nil]
    omega
  | cons em rest ih =>
    intro xs ps k h
    cases xs with
    | nil =>
      cases em with
      | error e => simp [forceAll] at h
      | ok m =>
        simp only [forceAll, Prod.mk.injEq] at h
        obtain ⟨-, hk⟩ := h
        simp only [List.length_cons, List.length_nil]
        omega
    | cons xi xs2 =>
      cases em with
      | error e => simp [forceAll] at h
      | ok m =>
        cases hr : forceAll (E := E) (M := M) (V := V) rest xs2 with
        | mk fst k2 =>
          cases fst with
          | error e => simp [forceAll, hr] at h
          | ok ps2 =>
            simp only [forceAll, hr, Prod.mk.injEq] at h
            obtain ⟨-, hk⟩ := h
            have hk2 := ih xs2 ps2 k2 hr
            simp only [List.length_cons]
            omega

/-- A successful pooled run, under either variant, forces
`min (len ms) (len xs + 1)` matrix builds. -/
theorem runPool_ok_count {M V T E : Type} (pc : PoolClass)
    (func : M → V → T → Except E V) (dt : T)
    (ms : List (Except E M)) (xs : List V) (res : List V) (k : Nat)
    (h : runPool pc func dt ms xs = (.ok res, k)) :
    k = min ms.length (xs.length + 1) := by
  cases pc with
  | poolShim => exact runSerial_ok_count func dt ms xs res k h
  | pool =>
    cases hfa : forceAll (E := E) (M := M) (V := V) ms xs with
    | mk fst k2 =>
      cases fst with
      | error e =>
        rw [show runPool PoolClass.pool func dt ms xs
            = runParallel func dt ms xs from rfl,
          runParallel, hfa] at h
        simp at h
      | ok pairs =>
        rw [show runPool PoolClass.pool func dt ms xs
            = runParallel func dt ms xs from rfl,
          runParallel, hfa] at h
        have hk : k = k2 := (Prod.mk.injEq _ _ _ _ ▸ h).2.symm
        rw [hk]
        exact forceAll_ok_count ms xs pairs k2 hfa

/-- Under the data-model invariant of one rate entry per material, the
pending-build list has exactly one entry per material. -/
theorem pendingBuilds_length_of_resolve {R Y M V : Type}
    (chain : Chain R Y M) (x : List V) (rates : List R)
    (matrix_func : Option (Chain R Y M → R → Y → M)) (fy : PyIter Y)
    (hres : resolveFissionYields chain.fission_yields x.length = .ok fy)
    (hr : rates.length = x.length) :
    (pendingBuilds chain rates matrix_func fy).length = x.length := by
  rcases resolve_ok_cases _ _ _ hres with ⟨y, hy, hfy⟩ | ⟨hfy, hlen⟩
  · subst hfy
    cases matrix_func with
    | none => simp [pendingBuilds, hr]
    | some mf => simp [pendingBuilds, hr]
  · subst hfy
    cases matrix_func with
    | none =>
      simp only [pendingBuilds, List.length_zipWith]
      omega
    | some mf =>
      simp only [pendingBuilds, List.length_zipWith]
      omega

/-!
Claim theorems.
-/

/-- C1: the one-shot `deplete` is claimed to produce results identical to
a dispatcher call with the same arguments, with a caller-supplied
`matrix_func` honored.  The code instead forwards `matrix_func=None`
unconditionally: at a concrete input the one-shot call equals the
dispatcher call with `none` (first conjunct) and differs from the
dispatcher call that honors the supplied `matrix_func` (second
conjunct). -/
theorem C1_oneshot_discards_matrix_func :
    (deplete (fun (A n t : Nat) => A + n + t)
        (⟨[5], fun r y => r + y⟩ : Chain Nat Nat Nat) [10] [3] 7
        (some (fun _ _ _ => 0)) [0]
      = (DepletionDispatcher.init true).deplete
          (fun (A n t : Nat) => A + n + t)
          ⟨[5], fun r y => r + y⟩ [10] [3] 7 none [0])
    ∧ deplete (fun (A n t : Nat) => A + n + t)
        (⟨[5], fun r y => r + y⟩ : Chain Nat Nat Nat) [10] [3] 7
        (some (fun _ _ _ => 0)) [0]
      ≠ (DepletionDispatcher.init true).deplete
          (fun (A n t : Nat) => A + n + t)
          ⟨[5], fun r y => r + y⟩ [10] [3] 7 (some (fun _ _ _ => 0)) [0] := by
  constructor
  · rfl
  · intro h
    have h1 : deplete (fun (A n t : Nat) => A + n + t)
        (⟨[5], fun r y => r + y⟩ : Chain Nat Nat Nat) [10] [3] 7
        (some (fun _ _ _ => 0)) [0] = .ok [25] := rfl
    have h2 : (DepletionDispatcher.init true).deplete
        (fun (A n t : Nat) => A + n + t)
        (⟨[5], fun r y => r + y⟩ : Chain Nat Nat Nat) [10] [3] 7
        (some (fun _ _ _ => 0)) [0] = .ok [17] := rfl
    rw [h1, h2] at h
    simp at h

/-- C2: when the fission-yield table length is neither 1 nor `len x`,
`deplete` raises the `ValueError` immediately: the matrix builder is never
invoked and the pool is never acquired (the trace stays zero). -/
theorem C2_validation_fails_fast {R Y M V T E : Type}
    (d : DepletionDispatcher) (func : M → V → T → Except E V)
    (chain : Chain R Y (Except E M)) (x : List V) (rates : List R) (dt : T)
    (matrix_func : Option (Chain R Y (Except E M) → R → Y → Except E M))
    (h1 : chain.fission_yields.length ≠ 1)
    (h2 : chain.fission_yields.length ≠ x.length) :
    d.depleteE func chain x rates dt matrix_func
      = (.error (.valueError ⟨chain.fission_yields.length, x.length⟩),
         ⟨0, 0, 0⟩) := by
  unfold DepletionDispatcher.depleteE
  rw [resolve_of_len_ne chain.fission_yields x.length h1 h2]

/-- Witness for C2 at a concrete input: a two-entry yield table with one
composition fails fast with a zero trace. -/
theorem C2_validation_fails_fast_witness :
    (DepletionDispatcher.init false).depleteE
        (fun (A n t : Nat) => (Except.ok (A + n + t) : Except Nat Nat))
        (⟨[1, 2], fun r y => Except.ok (r + y)⟩
          : Chain Nat Nat (Except Nat Nat))
        [5] [6] 7 none
      = (.error (.valueError ⟨2, 1⟩), ⟨0, 0, 0⟩) :=
  C2_validation_fails_fast _ _ _ _ _ _ _ (by decide) (by decide)

/-- C3: with a single-entry fission-yield table, the resolution is the
lazy repetition of that one entry, and the matrix builder (default or
custom) is applied to every one of the `N` materials with that same
entry. -/
theorem C3_broadcast_single_yield {R Y M V : Type}
    (chain : Chain R Y M) (x : List V) (rates : List R) (y : Y)
    (mf : Chain R Y M → R → Y → M)
    (hfy : chain.fission_yields = [y]) (hr : rates.length = x.length) :
    resolveFissionYields chain.fission_yields x.length = .ok (.rep y)
    ∧ buildMatrices chain rates none (.rep y)
        = .fin (rates.map (fun r => chain.form_matrix r y))
    ∧ buildMatrices chain rates (some mf) (.rep y)
        = .fin (rates.map (fun r => mf chain r y))
    ∧ (rates.map (fun r => chain.form_matrix r y)).length = x.length := by
  refine ⟨?_, buildMatrices_none_rep chain rates y,
    buildMatrices_some_rep chain rates mf y, ?_⟩
  · rw [hfy]
    rfl
  · rw [List.length_map]
    exact hr

/-- Witness for C3 at a concrete input with two materials. -/
theorem C3_broadcast_single_yield_witness :
    resolveFissionYields ([4] : List Nat) 2 = .ok (.rep 4)
    ∧ buildMatrices (⟨[4], fun r y => r * 10 + y⟩ : Chain Nat Nat Nat)
        [1, 2] none (.rep 4) = .fin [14, 24]
    ∧ buildMatrices (⟨[4], fun r y => r * 10 + y⟩ : Chain Nat Nat Nat)
        [1, 2] (some (fun _ r y => r + y)) (.rep 4) = .fin [5, 6] := by
  have h := C3_broadcast_single_yield
    (⟨[4], fun r y => r * 10 + y⟩ : Chain Nat Nat Nat)
    ([0, 0] : List Nat) [1, 2] 4 (fun _ r y => r + y) rfl rfl
  exact ⟨h.1, h.2.1, h.2.2.1⟩

/-- C4: with an `N`-length fission-yield table (`N = len x`, `N ≠ 1`), the
resolution keeps the table, and the matrix builder for material `i`
receives exactly yield entry `i`, paired strictly by position (for the
default and the custom builder alike). -/
theorem C4_positional_pairing {R Y M V : Type}
    (chain : Chain R Y M) (x : List V) (rates : List R)
    (mf : Chain R Y M → R → Y → M)
    (hfy : chain.fission_yields.length = x.length)
    (h1 : chain.fission_yields.length ≠ 1) :
    resolveFissionYields chain.fission_yields x.length
      = .ok (.fin chain.fission_yields)
    ∧ (∀ i r y, rates.get? i = some r →
        chain.fission_yields.get? i = some y →
        (buildMatrices chain rates none (.fin chain.fission_yields)).nth i
          = some (chain.form_matrix r y))
    ∧ (∀ i r y, rates.get? i = some r →
        chain.fission_yields.get? i = some y →
        (buildMatrices chain rates (some mf)
            (.fin chain.fission_yields)).nth i
          = some (mf chain r y)) := by
  refine ⟨resolve_of_len_eq _ _ h1 hfy, ?_, ?_⟩
  · intro i r y hri hyi
    rw [buildMatrices_none_fin]
    show (List.zipWith chain.form_matrix rates chain.fission_yields).get? i
      = _
    rw [List.get?_zipWith', hri, hyi]
    rfl
  · intro i r y hri hyi
    rw [buildMatrices_some_fin]
    show (List.zipWith (fun r y => mf chain r y) rates
        chain.fission_yields).get? i = _
    rw [List.get?_zipWith', hri, hyi]
    rfl

/-- Witness for C4 at a concrete two-material input, checked at
position 1. -/
theorem C4_positional_pairing_witness :
    resolveFissionYields ([4, 5] : List Nat) 2 = .ok (.fin [4, 5])
    ∧ (buildMatrices (⟨[4, 5], fun r y => r * 10 + y⟩ : Chain Nat Nat Nat)
        [1, 2] none (.fin [4, 5])).nth 1 = some 25
    ∧ (buildMatrices (⟨[4, 5], fun r y => r * 10 + y⟩ : Chain Nat Nat Nat)
        [1, 2] (some (fun _ r y => r + y)) (.fin [4, 5])).nth 1
        = some 7 := by
  have h := C4_positional_pairing
    (⟨[4, 5], fun r y => r * 10 + y⟩ : Chain Nat Nat Nat)
    ([0, 0] : List Nat) [1, 2] (fun _ r y => r + y) (by decide) (by decide)
  exact ⟨h.1, h.2.1 1 2 5 rfl rfl, h.2.2 1 2 5 rfl rfl⟩

/-- C5: on every successful call, under both the serial and the parallel
executor variant, the returned list preserves input order: the result is
the in-order map of `func` over the `(matrix, vector, dt)` tuples, and
element `i` of the result is `func` applied to matrix `i`, atom vector
`i`, and `dt`. -/
theorem C5_result_preserves_input_order {R Y M V T : Type}
    (d : DepletionDispatcher) (func : M → V → T → V) (chain : Chain R Y M)
    (x : List V) (rates : List R) (dt : T)
    (matrix_func : Option (Chain R Y M → R → Y → M)) (order : List Nat)
    (fy : PyIter Y)
    (hres : resolveFissionYields chain.fission_yields x.length = .ok fy)
    (horder : order.Perm (List.range
      (zipRep (buildMatrices chain rates matrix_func fy) x dt).length)) :
    d.deplete func chain x rates dt matrix_func order
      = .ok ((zipRep (buildMatrices chain rates matrix_func fy) x dt).map
          (fun p => func p.1 p.2.1 p.2.2))
    ∧ ∀ i m xi,
        (buildMatrices chain rates matrix_func fy).nth i = some m →
        x.get? i = some xi →
        ((zipRep (buildMatrices chain rates matrix_func fy) x dt).map
            (fun p => func p.1 p.2.1 p.2.2)).get? i
          = some (func m xi dt) := by
  constructor
  · rw [deplete_ok_of_resolve d func chain x rates dt matrix_func order fy
        hres,
      depleteRun_eq_map d func chain x rates dt matrix_func order fy horder]
  · intro i m xi hm hxi
    rw [List.get?_map, zipRep_get _ _ _ _ _ _ hm hxi]
    rfl

/-- Witness for C5: a parallel two-material call with completion order
`[1, 0]` still returns the results in input order. -/
theorem C5_result_preserves_input_order_witness :
    (DepletionDispatcher.init true).deplete (fun (A n t : Nat) => A + n + t)
        (⟨[4, 5], fun r y => r * 10 + y⟩ : Chain Nat Nat Nat)
        [100, 200] [1, 2] 3 none [1, 0]
      = .ok [117, 228] := by
  have h := C5_result_preserves_input_order (DepletionDispatcher.init true)
    (fun (A n t : Nat) => A + n + t)
    (⟨[4, 5], fun r y => r * 10 + y⟩ : Chain Nat Nat Nat)
    [100, 200] [1, 2] 3 none [1, 0] (.fin [4, 5]) rfl (by decide)
  exact h.1

/-- C6: with the same deterministic `func` and identical inputs, the
parallel dispatcher and the serial dispatcher return identical results
(for any completion order of the parallel pool). -/
theorem C6_serial_parallel_equivalence {R Y M V T : Type}
    (func : M → V → T → V) (chain : Chain R Y M) (x : List V)
    (rates : List R) (dt : T)
    (matrix_func : Option (Chain R Y M → R → Y → M)) (order : List Nat)
    (horder : order.Perm (List.range (min rates.length x.length))) :
    (DepletionDispatcher.init true).deplete
        func chain x rates dt matrix_func order
      = (DepletionDispatcher.init false).deplete
          func chain x rates dt matrix_func order := by
  cases hres : resolveFissionYields chain.fission_yields x.length with
  | error e =>
    unfold DepletionDispatcher.deplete
    rw [hres]
  | ok fy =>
    rw [deplete_ok_of_resolve _ func chain x rates dt matrix_func order fy
        hres,
      deplete_ok_of_resolve _ func chain x rates dt matrix_func order fy
        hres]
    have hlen := zipRep_length_of_resolve chain x rates dt matrix_func fy
      hres
    have horder2 : order.Perm (List.range
        (zipRep (buildMatrices chain rates matrix_func fy) x dt).length) := by
      rw [hlen]
      exact horder
    rw [depleteRun_eq_map _ func chain x rates dt matrix_func order fy
        horder2,
      depleteRun_eq_map _ func chain x rates dt matrix_func order fy
        horder2]

/-- Witness for C6 at a concrete two-material input. -/
theorem C6_serial_parallel_equivalence_witness :
    (DepletionDispatcher.init true).deplete (fun (A n t : Nat) => A + n + t)
        (⟨[4, 5], fun r y => r * 10 + y⟩ : Chain Nat Nat Nat)
        [100, 200] [1, 2] 3 none [1, 0]
      = (DepletionDispatcher.init false).deplete
          (fun (A n t : Nat) => A + n + t)
          (⟨[4, 5], fun r y => r * 10 + y⟩ : Chain Nat Nat Nat)
          [100, 200] [1, 2] 3 none [1, 0] :=
  C6_serial_parallel_equivalence _ _ _ _ _ _ _ (by decide)

/-- C7: when the matrix builder or `func` raises after the pool was
acquired, `deplete` re-raises exactly that exception (no retry, no partial
result), and the pool is still released exactly once. -/
theorem C7_error_propagates_pool_released {R Y M V T E : Type}
    (d : DepletionDispatcher) (func : M → V → T → Except E V)
    (chain : Chain R Y (Except E M)) (x : List V) (rates : List R) (dt : T)
    (matrix_func : Option (Chain R Y (Except E M) → R → Y → Except E M))
    (fy : PyIter Y) (e : E) (k : Nat)
    (hres : resolveFissionYields chain.fission_yields x.length = .ok fy)
    (hrun : runPool d._pool_class func dt
        (pendingBuilds chain rates matrix_func fy) x
      = (.error e, k)) :
    d.depleteE func chain x rates dt matrix_func
      = (.error (.raised e), ⟨k, 1, 1⟩) := by
  simp only [DepletionDispatcher.depleteE, hres, hrun, Except.mapError]

/-- Witness for C7: an integration function that raises `42` on the single
material; the raised value propagates and the trace shows one acquisition
and one release. -/
theorem C7_error_propagates_pool_released_witness :
    (DepletionDispatcher.init false).depleteE
        (fun (_ _ _ : Nat) => (Except.error 42 : Except Nat Nat))
        (⟨[9], fun r y => Except.ok (r + y)⟩
          : Chain Nat Nat (Except Nat Nat))
        [1] [2] 3 none
      = (.error (.raised 42), ⟨1, 1, 1⟩) :=
  C7_error_propagates_pool_released (DepletionDispatcher.init false)
    _ _ _ _ _ _ (.rep 9) 42 1 rfl rfl

/-- Position lemma: the default builder builds matrix `i` from rate `i`
and yield `i` of the resolved iterable. -/
theorem buildMatrices_nth_none {R Y M : Type} (chain : Chain R Y M)
    (rates : List R) (fy : PyIter Y) (i : Nat) (r : R) (y : Y)
    (hr : rates.get? i = some r) (hy : fy.nth i = some y) :
    (buildMatrices chain rates none fy).nth i
      = some (chain.form_matrix r y) := by
  cases fy with
  | rep y2 =>
    injection hy with hy2
    rw [buildMatrices_none_rep, hy2]
    show (rates.map (fun r => chain.form_matrix r y)).get? i = _
    rw [List.get?_map, hr]
    rfl
  | fin fys =>
    have hy2 : fys.get? i = some y := hy
    rw [buildMatrices_none_fin]
    show (List.zipWith chain.form_matrix rates fys).get? i = _
    rw [List.get?_zipWith', hr, hy2]
    rfl

/-- Position lemma: a custom builder builds matrix `i` from the chain,
rate `i`, and yield `i` of the resolved iterable. -/
theorem buildMatrices_nth_some {R Y M : Type} (chain : Chain R Y M)
    (rates : List R) (mf : Chain R Y M → R → Y → M) (fy : PyIter Y)
    (i : Nat) (r : R) (y : Y)
    (hr : rates.get? i = some r) (hy : fy.nth i = some y) :
    (buildMatrices chain rates (some mf) fy).nth i
      = some (mf chain r y) := by
  cases fy with
  | rep y2 =>
    injection hy with hy2
    rw [buildMatrices_some_rep, hy2]
    show (rates.map (fun r => mf chain r y)).get? i = _
    rw [List.get?_map, hr]
    rfl
  | fin fys =>
    have hy2 : fys.get? i = some y := hy
    rw [buildMatrices_some_fin]
    show (List.zipWith (fun r y => mf chain r y) rates fys).get? i = _
    rw [List.get?_zipWith', hr, hy2]
    rfl

/-- C8: the matrix for material `i` is built by the chain's default
constructor on `(rate_i, yield_i)` when `matrix_func` is `None`, and by
`matrix_func (chain, rate_i, yield_i)` when supplied — and on a successful
call, under the data-model invariant of one rate entry per material, the
builder runs exactly once per material.  (Without that invariant the pull
order of the zip forces one extra discarded build in the broadcast case
with more rate entries than atom vectors; see the over-scan theorems
below.) -/
theorem C8_builder_convention {R Y M V T E : Type}
    (d : DepletionDispatcher) (func : M → V → T → Except E V)
    (chain : Chain R Y (Except E M)) (x : List V) (rates : List R) (dt : T)
    (matrix_func : Option (Chain R Y (Except E M) → R → Y → Except E M))
    (fy : PyIter Y) (res : List V)
    (hres : resolveFissionYields chain.fission_yields x.length = .ok fy)
    (hok : (d.depleteE func chain x rates dt matrix_func).1 = .ok res)
    (hr : rates.length = x.length) :
    (∀ i r y, rates.get? i = some r → fy.nth i = some y →
        (buildMatrices chain rates none fy).nth i
          = some (chain.form_matrix r y))
    ∧ (∀ (mf : Chain R Y (Except E M) → R → Y → Except E M) i r y,
        rates.get? i = some r → fy.nth i = some y →
        (buildMatrices chain rates (some mf) fy).nth i
          = some (mf chain r y))
    ∧ (d.depleteE func chain x rates dt matrix_func).2.builderCalls
        = x.length := by
  refine ⟨fun i r y hri hy =>
      buildMatrices_nth_none chain rates fy i r y hri hy,
    fun mf i r y hri hy =>
      buildMatrices_nth_some chain rates mf fy i r y hri hy,
    ?_⟩
  cases hrp : runPool d._pool_class func dt
      (pendingBuilds chain rates matrix_func fy) x with
  | mk r0 k =>
    have hE : d.depleteE func chain x rates dt matrix_func
        = (r0.mapError .raised, ⟨k, 1, 1⟩) := by
      simp only [DepletionDispatcher.depleteE, hres, hrp]
    rw [hE]
    rw [hE] at hok
    cases r0 with
    | error e => simp [Except.mapError] at hok
    | ok vs =>
      have hk := runPool_ok_count d._pool_class func dt _ x vs k hrp
      have hlen := pendingBuilds_length_of_resolve chain x rates matrix_func
        fy hres hr
      show k = x.length
      omega

/-- Witness for C8: single material, default builder; the matrix is
`form_matrix 2 9 = ok 11` and the builder ran once. -/
theorem C8_builder_convention_witness :
    (buildMatrices
        (⟨[9], fun r y => Except.ok (r + y)⟩
          : Chain Nat Nat (Except Nat Nat)) [2] none (.rep 9)).nth 0
      = some (.ok 11)
    ∧ ((DepletionDispatcher.init false).depleteE
        (fun (A n t : Nat) => (Except.ok (A + n + t) : Except Nat Nat))
        (⟨[9], fun r y => Except.ok (r + y)⟩
          : Chain Nat Nat (Except Nat Nat))
        [1] [2] 3 none).2.builderCalls = 1 := by
  have h := C8_builder_convention (DepletionDispatcher.init false)
    (fun (A n t : Nat) => (Except.ok (A + n + t) : Except Nat Nat))
    (⟨[9], fun r y => Except.ok (r + y)⟩ : Chain Nat Nat (Except Nat Nat))
    [1] [2] 3 none (.rep 9) [15] rfl rfl rfl
  exact ⟨h.1 0 2 9 rfl rfl, h.2.2⟩

/-- Fidelity of the pull-order forcing: in the broadcast case with two
rate entries and one atom vector, the zip forces the second (discarded)
matrix build, so the trace counts two builder invocations, not one. -/
theorem depleteE_broadcast_overscan_count :
    ((DepletionDispatcher.init false).depleteE
        (fun (A n t : Nat) => (Except.ok (A + n + t) : Except Nat Nat))
        (⟨[9], fun r y => Except.ok (r + y)⟩
          : Chain Nat Nat (Except Nat Nat))
        [1] [2, 3] 5 none).2.builderCalls = 2 := rfl

/-- Fidelity of the pull-order forcing: an exception raised by the extra
discarded build propagates and aborts the whole call, exactly as the real
zip forces it after the last material's integration. -/
theorem depleteE_broadcast_overscan_error :
    (DepletionDispatcher.init false).depleteE
        (fun (A n t : Nat) => (Except.ok (A + n + t) : Except Nat Nat))
        (⟨[9], fun r y =>
            if r = 3 then Except.error 7 else Except.ok (r + y)⟩
          : Chain Nat Nat (Except Nat Nat))
        [1] [2, 3] 5 none
      = (.error (.raised 7), ⟨2, 1, 1⟩) := rfl

/-- C9: `deplete` leaves the dispatcher unchanged — the state-passing form
returns the receiver as is, the pool class selected at construction is
never modified, and a successive call on the returned dispatcher behaves
exactly like a call on the original. -/
theorem C9_dispatcher_state_unchanged {R Y M V T : Type}
    (d : DepletionDispatcher) (func : M → V → T → V) (chain : Chain R Y M)
    (x : List V) (rates : List R) (dt : T)
    (matrix_func : Option (Chain R Y M → R → Y → M)) (order : List Nat)
    (func2 : M → V → T → V) (chain2 : Chain R Y M) (x2 : List V)
    (rates2 : List R) (dt2 : T)
    (matrix_func2 : Option (Chain R Y M → R → Y → M)) (order2 : List Nat) :
    (d.depleteS func chain x rates dt matrix_func order).2 = d
    ∧ (d.depleteS func chain x rates dt matrix_func order).2._pool_class
        = d._pool_class
    ∧ ((d.depleteS func chain x rates dt matrix_func order).2.depleteS
          func2 chain2 x2 rates2 dt2 matrix_func2 order2).1
        = d.deplete func2 chain2 x2 rates2 dt2 matrix_func2 order2
    ∧ (DepletionDispatcher.init true)._pool_class = .pool
    ∧ (DepletionDispatcher.init false)._pool_class = .poolShim :=
  ⟨rfl, rfl, rfl, rfl, rfl⟩

/-- C10: `deplete` validates only the fission-yield length against
`len x` — it raises exactly when that length is neither 1 nor `len x`,
regardless of `rates` — and on every non-error path the result list has
length `min (len rates) (len x)`, silently truncating when `rates` is
shorter than `x`. -/
theorem C10_rates_unvalidated_result_truncated {R Y M V T : Type}
    (d : DepletionDispatcher) (func : M → V → T → V) (chain : Chain R Y M)
    (x : List V) (rates : List R) (dt : T)
    (matrix_func : Option (Chain R Y M → R → Y → M)) (order : List Nat)
    (horder : order.Perm (List.range (min rates.length x.length))) :
    ((∃ e, d.deplete func chain x rates dt matrix_func order = .error e)
        ↔ chain.fission_yields.length ≠ 1
            ∧ chain.fission_yields.length ≠ x.length)
    ∧ ∀ res, d.deplete func chain x rates dt matrix_func order = .ok res →
        res.length = min rates.length x.length := by
  cases hres : resolveFissionYields chain.fission_yields x.length with
  | error e =>
    have hdep : d.deplete func chain x rates dt matrix_func order
        = .error e := by
      unfold DepletionDispatcher.deplete
      rw [hres]
    constructor
    · constructor
      · intro _
        by_cases h1 : chain.fission_yields.length = 1
        · obtain ⟨y, hy⟩ := List.length_eq_one.mp h1
          rw [hy, resolve_singleton] at hres
          exact absurd hres (by simp)
        · by_cases h2 : chain.fission_yields.length = x.length
          · rw [resolve_of_len_eq _ _ h1 h2] at hres
            exact absurd hres (by simp)
          · exact ⟨h1, h2⟩
      · intro _
        exact ⟨e, hdep⟩
    · intro res hok
      rw [hdep] at hok
      exact absurd hok (by simp)
  | ok fy =>
    have hdep := deplete_ok_of_resolve d func chain x rates dt matrix_func
      order fy hres
    constructor
    · constructor
      · intro ⟨e, he⟩
        rw [hdep] at he
        exact absurd he (by simp)
      · intro ⟨h1, h2⟩
        exact absurd ((resolve_of_len_ne _ _ h1 h2).symm.trans hres)
          (by simp)
    · intro res hok
      rw [hdep] at hok
      obtain rfl : d.depleteRun func chain x rates dt matrix_func order fy
          = res := Except.ok.inj hok
      have hlen := zipRep_length_of_resolve chain x rates dt matrix_func fy
        hres
      have horder2 : order.Perm (List.range
          (zipRep (buildMatrices chain rates matrix_func fy) x dt).length) := by
        rw [hlen]
        exact horder
      rw [depleteRun_eq_map d func chain x rates dt matrix_func order fy
          horder2,
        List.length_map, hlen]

/-- Witness for C10: three atom vectors but only two reaction-rate
entries — the call succeeds and silently returns two results. -/
theorem C10_rates_unvalidated_result_truncated_witness :
    (DepletionDispatcher.init false).deplete (fun (A n t : Nat) => A + n + t)
        (⟨[7], fun r y => r + y⟩ : Chain Nat Nat Nat) [1, 2, 3] [10, 20] 0
        none [0, 1]
      = .ok [18, 29]
    ∧ ([18, 29] : List Nat).length = min 2 3 := by
  have h := C10_rates_unvalidated_result_truncated
    (DepletionDispatcher.init false) (fun (A n t : Nat) => A + n + t)
    (⟨[7], fun r y => r + y⟩ : Chain Nat Nat Nat) [1, 2, 3] [10, 20] 0
    none [0, 1] (by decide)
  exact ⟨rfl, h.2 [18, 29] rfl⟩

end OpenMCDeplete
